import Mathlib

/-!
Verification of the Token-Budgeted Context Assembly Engine of this
repository: a shallow embedding in Lean 4 of the token estimator
(`SimpleTokenCounter`), the budget allocator (`TokenBudget.AllocateTokens`),
the two bounded truncators (`TokenBudgetManager.truncateText` from
`budget.go` and `BaseFileManager.simpleTokenTruncate` from `base.go`),
the file-backed content store (`BaseFileManager`), and the context
assembler (`ContextBuilder`).

Modelling conventions:
* Go strings are modelled as `List Char` (sequences of codepoints); all the
  embedded functions walk strings rune-by-rune (`strings.Fields`,
  `strings.Split`, `[]rune`), so this is faithful at codepoint level.
* Go `float64` arithmetic on small quantities is modelled by exact `ℚ`
  arithmetic: the constants 1.5 and 0.75 are exactly representable and the
  products/sums stay exact for every realistic operand size, and `int(x)`
  on a non-negative float is `⌊x⌋`.
* `unicode.IsPunct` and `unicode.IsDigit` are embedded on their ASCII
  fragment (exactly the ASCII codepoints of the Unicode P* and Nd
  categories); no claim below depends on non-ASCII punctuation or digits.
* File-system effects are modelled by explicit state passing over a
  one-file storage cell with an integer modification clock.
-/

namespace NovelWF

/-- The set accepted by Go's `unicode.IsSpace` (the Unicode White_Space
property): the characters `strings.Fields` and `strings.TrimSpace` split
and trim on. -/
def goIsSpace (c : Char) : Bool :=
  c.val == 9 || c.val == 10 || c.val == 11 || c.val == 12 || c.val == 13 ||
  c.val == 32 || c.val == 0x85 || c.val == 0xA0 || c.val == 0x1680 ||
  (0x2000 ≤ c.val && c.val ≤ 0x200A) || c.val == 0x2028 || c.val == 0x2029 ||
  c.val == 0x202F || c.val == 0x205F || c.val == 0x3000

/-- Accumulator loop for `strings.Fields`: `acc` holds the reversed
current run of non-whitespace characters. -/
def fieldsAux (s : List Char) (acc : List Char) : List (List Char) :=
  match s with
  | [] => if acc = [] then [] else [acc.reverse]
  | c :: rest =>
    if goIsSpace c then
      if acc = [] then fieldsAux rest []
      else acc.reverse :: fieldsAux rest []
    else fieldsAux rest (c :: acc)

/-- Embeds `strings.Fields`: split a string into the maximal runs of
non-whitespace characters. -/
def fields (s : List Char) : List (List Char) :=
  fieldsAux s []

/-- Embeds `strings.Split(s, "\n")`: split on every newline, keeping empty pieces
(a string with no newline yields one piece). -/
def splitNL (s : List Char) : List (List Char) :=
  match s with
  | [] => [[]]
  | c :: rest =>
    if c = '\n' then [] :: splitNL rest
    else
      match splitNL rest with
      | [] => [[c]]
      | l :: ls => (c :: l) :: ls

/-- Embeds `strings.Join(pieces, sep)`. -/
def joinSep (sep : List Char) : List (List Char) → List Char
  | [] => []
  | [l] => l
  | l :: ls => l ++ sep ++ joinSep sep ls

/-- Embeds `SimpleTokenCounter.isChinese`: the seven CJK codepoint ranges the
counter treats as Chinese. -/
def isChinese (c : Char) : Bool :=
  (0x4e00 ≤ c.val && c.val ≤ 0x9fff) ||
  (0x3400 ≤ c.val && c.val ≤ 0x4dbf) ||
  (0x20000 ≤ c.val && c.val ≤ 0x2a6df) ||
  (0x2a700 ≤ c.val && c.val ≤ 0x2b73f) ||
  (0x2b740 ≤ c.val && c.val ≤ 0x2b81f) ||
  (0x2b820 ≤ c.val && c.val ≤ 0x2ceaf) ||
  (0x2ceb0 ≤ c.val && c.val ≤ 0x2ebef)

/-- ASCII fragment of Go's `unicode.IsDigit` (Unicode Nd): `'0'..'9'`. -/
def goIsDigit (c : Char) : Bool :=
  48 ≤ c.val && c.val ≤ 57

/-- ASCII fragment of Go's `unicode.IsPunct` (Unicode P*): the ASCII
punctuation codepoints, excluding the symbol-category characters
`$ + < = > ^` backquote `| ~`. -/
def goIsPunct (c : Char) : Bool :=
  c.val == 33 || c.val == 34 || c.val == 35 || c.val == 37 || c.val == 38 ||
  c.val == 39 || (40 ≤ c.val && c.val ≤ 42) || (44 ≤ c.val && c.val ≤ 47) ||
  c.val == 58 || c.val == 59 || c.val == 63 || c.val == 64 ||
  (91 ≤ c.val && c.val ≤ 93) || c.val == 95 || c.val == 123 || c.val == 125

/-- Embeds `SimpleTokenCounter.isChineseWord`: more than 50% of the word's
codepoints are CJK.  `float64(a)/float64(b) > 0.5` is `2*a > b` exactly. -/
def isChineseWord (w : List Char) : Bool :=
  2 * (w.countP (fun c => isChinese c)) > w.length

/-- Embeds `SimpleTokenCounter.isNumberWord`: more than 70% of the word's
codepoints are digits.  `float64(a)/float64(b) > 0.7` is `10*a > 7*b`
exactly for every word length a Go slice can have. -/
def isNumberWord (w : List Char) : Bool :=
  10 * (w.countP (fun c => goIsDigit c)) > 7 * w.length

/-- The four counters accumulated by `SimpleTokenCounter.Count`:
CJK codepoints inside Chinese-dominant words, count of Latin/mixed words,
count of numeric-dominant words, punctuation codepoints inside Latin/mixed
words. -/
structure ClassCounts where
  chineseChars : Nat
  englishWords : Nat
  numbers : Nat
  punctuation : Nat
deriving DecidableEq, Repr

/-- Classify one whitespace-delimited word, in the source's branch order. -/
def classifyWord (acc : ClassCounts) (w : List Char) : ClassCounts :=
  if isChineseWord w then
    { acc with chineseChars := acc.chineseChars + w.length }
  else if isNumberWord w then
    { acc with numbers := acc.numbers + 1 }
  else
    { acc with englishWords := acc.englishWords + 1,
               punctuation := acc.punctuation + w.countP (fun c => goIsPunct c) }

/-- Accumulate `classifyWord` over all fields of the text. -/
def countClasses (ws : List (List Char)) : ClassCounts :=
  ws.foldl classifyWord ⟨0, 0, 0, 0⟩

/-- Embeds `SimpleTokenCounter.Count`: the token estimate.
`int(float64(chineseChars)*1.5)` is `(3*chineseChars)/2` and
`int(float64(englishWords)*0.75)` is `(3*englishWords)/4` exactly
(both products are exact in `float64`); `numbers/2` and `punctuation/3`
are Go integer divisions. -/
def Count (s : List Char) : Nat :=
  if s = [] then 0
  else
    let k := countClasses (fields s)
    3 * k.chineseChars / 2 + 3 * k.englishWords / 4 +
      k.numbers / 2 + k.punctuation / 3

/-! ### `budget.go`: `TokenBudgetManager` truncation -/

/-- Word-accumulation loop of `TokenBudgetManager.truncateLineByTokens`:
take words while the running sum of their individual estimates stays
within the budget. -/
def accumWords (words : List (List Char)) (total maxTokens : ℤ) :
    List (List Char) :=
  match words with
  | [] => []
  | w :: rest =>
    let wt : ℤ := Count w
    if total + wt > maxTokens then []
    else w :: accumWords rest (total + wt) maxTokens

/-- Embeds `TokenBudgetManager.truncateLineByTokens`: word-level truncation of a
single line, rejoining the kept words with single spaces. -/
def truncateLineByTokens (line : List Char) (maxTokens : ℤ) : List Char :=
  if maxTokens ≤ 0 then []
  else joinSep [' '] (accumWords (fields line) 0 maxTokens)

/-- Line-accumulation loop of `TokenBudgetManager.truncateText`: keep whole
lines while they fit; on the first overflowing line, spend the remaining
budget on a word-level truncation of that line, re-counting the rejoined
piece; `total` threads the running token count (the Go `totalTokens`). -/
def truncLines (lines : List (List Char)) (total maxTokens : ℤ) :
    List (List Char) × ℤ :=
  match lines with
  | [] => ([], total)
  | line :: rest =>
    let lt : ℤ := Count line
    if total + lt > maxTokens then
      if total < maxTokens then
        let tl := truncateLineByTokens line (maxTokens - total)
        if tl = [] then ([], total) else ([tl], total + (Count tl : ℤ))
      else ([], total)
    else
      let res := truncLines rest (total + lt) maxTokens
      (line :: res.1, res.2)

/-- Embeds `TokenBudgetManager.truncateText`: split on newlines, accumulate, and
rejoin the kept pieces with newlines, returning the running count. -/
def truncateText (text : List Char) (maxTokens : ℤ) : List Char × ℤ :=
  let res := truncLines (splitNL text) 0 maxTokens
  (joinSep ['\n'] res.1, res.2)

/-! ### `TokenBudget.AllocateTokens` and the budget manager -/

/-- Go's `int(x)` conversion of a non-negative-or-negative float:
truncation toward zero, modelled exactly on `ℚ`. -/
def truncQ (q : ℚ) : ℤ :=
  if 0 ≤ q then ⌊q⌋ else -⌊-q⌋

/-- First pass of `TokenBudget.AllocateTokens`:
`tokens := int(float64(total)*percentage + 0.999)` per category. -/
def allocInit (total : ℤ) (ws : List (String × ℚ)) : List (String × ℤ) :=
  ws.map (fun p => (p.1, truncQ ((total : ℚ) * p.2 + 999/1000)))

/-- Sum of the allocated values (the Go `totalAllocated`). -/
def sumVals (l : List (String × ℤ)) : ℤ :=
  (l.map Prod.snd).sum

/-- Embeds `TokenBudget.AllocateTokens`: per-category `int(total*w + 0.999)`;
if the sum exceeds the total, rescale every entry to
`int(tokens * total/sum)` floored at 1 (`if adjusted < 1 { adjusted = 1 }`
runs for every component, whatever its weight). -/
def AllocateTokens (total : ℤ) (ws : List (String × ℚ)) :
    List (String × ℤ) :=
  let alloc := allocInit total ws
  let s := sumVals alloc
  if s > total then
    alloc.map (fun p => (p.1, max 1 (truncQ ((p.2 : ℚ) * total / s))))
  else alloc

/-- Go `allocation[component]` with the `exists` check: first matching
key's value, `0` when the key is absent. -/
def lookupAlloc (l : List (String × ℤ)) (k : String) : ℤ :=
  ((l.find? (fun p => p.1 == k)).map Prod.snd).getD 0

/-- Embeds `TokenPercentages`: the five-field weight configuration; Go `float64`
fields modelled as exact rationals. -/
structure TokenPercentages where
  plan : ℚ
  character : ℚ
  worldview : ℚ
  chapters : ℚ
  index : ℚ
deriving DecidableEq, Repr

/-- Embeds `TokenPercentages.ToMap`, in the source's field order. -/
def TokenPercentages.toMap (tp : TokenPercentages) : List (String × ℚ) :=
  [("plan", tp.plan), ("character", tp.character),
   ("worldview", tp.worldview), ("chapters", tp.chapters),
   ("index", tp.index)]

/-- Embeds `TokenPercentages.Validate` succeeds: sum within ±1% of 1 and every
field non-negative. -/
def TokenPercentages.Valid (tp : TokenPercentages) : Prop :=
  |tp.plan + tp.character + tp.worldview + tp.chapters + tp.index - 1|
      ≤ 1/100 ∧
  0 ≤ tp.plan ∧ 0 ≤ tp.character ∧ 0 ≤ tp.worldview ∧
  0 ≤ tp.chapters ∧ 0 ≤ tp.index

/-- Embeds `TokenBudgetManager`: the fields the truncation path reads
(`counter` is always `NewSimpleTokenCounter()`). -/
structure TokenBudgetManager where
  maxTokens : ℤ
  percentages : TokenPercentages
deriving DecidableEq, Repr

/-- Embeds `TokenBudgetManager.GetAllocatedTokens`. -/
def TokenBudgetManager.getAllocatedTokens (m : TokenBudgetManager) :
    List (String × ℤ) :=
  AllocateTokens m.maxTokens m.percentages.toMap

/-- Embeds `TokenBudgetManager.GetTokenAllocation`: allocation lookup, `0` for an
unknown component. -/
def TokenBudgetManager.getTokenAllocation (m : TokenBudgetManager)
    (component : String) : ℤ :=
  lookupAlloc m.getAllocatedTokens component

/-- Embeds `TokenBudgetManager.TruncateToTokenLimit`: empty text and non-positive
ceilings short-circuit to `("", 0)`; text already within the ceiling is
returned unchanged with its estimate; otherwise `truncateText` runs. -/
def TokenBudgetManager.truncateToTokenLimit (m : TokenBudgetManager)
    (text : List Char) (component : String) : List Char × ℤ :=
  if text = [] then ([], 0)
  else
    let maxTokens := m.getTokenAllocation component
    if maxTokens ≤ 0 then ([], 0)
    else
      let currentTokens : ℤ := Count text
      if currentTokens ≤ maxTokens then (text, currentTokens)
      else truncateText text maxTokens

/-! ### `base.go`: `BaseFileManager` truncation -/

/-- Loop body of `BaseFileManager.truncateLineByCharacters`: Go's
`for left <= right` binary search over the codepoint count, written with a
step budget (`fuel`); every iteration either returns or shrinks
`right + 1 - left`, so `runes.length + 2` steps always suffice. -/
def binSearchGo (runes : List Char) (limit : ℤ) :
    Nat → Nat → Nat → Nat → Nat
  | 0, _, _, bestEnd => bestEnd
  | fuel + 1, left, right, bestEnd =>
    if left > right then bestEnd
    else
      let mid := (left + right) / 2
      if mid = 0 then binSearchGo runes limit fuel (mid + 1) right bestEnd
      else if (Count (runes.take mid) : ℤ) ≤ limit then
        binSearchGo runes limit fuel (mid + 1) right mid
      else
        binSearchGo runes limit fuel left (mid - 1) bestEnd

/-- Embeds `BaseFileManager.truncateLineByCharacters`: binary search for the
longest codepoint prefix whose estimate fits the limit. -/
def truncateLineByCharacters (line : List Char) (limit : ℤ) : List Char :=
  if limit ≤ 0 then []
  else
    let bestEnd := binSearchGo line limit (line.length + 2) 0 line.length 0
    if bestEnd = 0 then [] else line.take bestEnd

/-- Embeds `BaseFileManager.truncateLineByWords`: word-level accumulation when the
line has more than one field, else (or when no word fits) fall through to
the codepoint-level binary search. -/
def truncateLineByWords (line : List Char) (limit : ℤ) : List Char :=
  if limit ≤ 0 then []
  else
    let words := fields line
    if 1 < words.length then
      let result := accumWords words 0 limit
      if result.length > 0 then joinSep [' '] result
      else truncateLineByCharacters line limit
    else truncateLineByCharacters line limit

/-- Line-accumulation loop of `BaseFileManager.simpleTokenTruncate`, the
same shape as `truncLines` but falling back to `truncateLineByWords`. -/
def truncLinesSimple (lines : List (List Char)) (total limit : ℤ) :
    List (List Char) × ℤ :=
  match lines with
  | [] => ([], total)
  | line :: rest =>
    let lt : ℤ := Count line
    if total + lt > limit then
      if total < limit then
        let tl := truncateLineByWords line (limit - total)
        if tl = [] then ([], total) else ([tl], total + (Count tl : ℤ))
      else ([], total)
    else
      let res := truncLinesSimple rest (total + lt) limit
      (line :: res.1, res.2)

/-- Embeds `BaseFileManager.simpleTokenTruncate`. -/
def simpleTokenTruncate (text : List Char) (limit : ℤ) : List Char × ℤ :=
  if limit ≤ 0 then ([], 0)
  else
    let res := truncLinesSimple (splitNL text) 0 limit
    (joinSep ['\n'] res.1, res.2)

/-- Embeds `BaseFileManager.TruncateToLimit`: with a token budget attached it
delegates to `TruncateToTokenLimit` under the fixed component name
`"default"`; without one it runs the local estimate-and-truncate logic. -/
def BaseTruncateToLimit (budget : Option TokenBudgetManager)
    (text : List Char) (limit : ℤ) : List Char × ℤ :=
  match budget with
  | some b => b.truncateToTokenLimit text "default"
  | none =>
    let currentTokens : ℤ := Count text
    if currentTokens ≤ limit then (text, currentTokens)
    else simpleTokenTruncate text limit

/-- Embeds `IndexReader.GetSummaryWithTokenLimit`, with the summary text the
`GetSummary` call would produce passed explicitly. -/
def GetSummaryWithTokenLimit (budget : Option TokenBudgetManager)
    (summary : List Char) (maxTokens : ℤ) : List Char × ℤ :=
  if summary = [] then ([], 0)
  else BaseTruncateToLimit budget summary maxTokens

/-! ### `base.go`: the file-backed content store -/

/-- One storage cell: the blob's bytes and its last-modified time
(an integer clock). -/
structure FileCell where
  data : List Char
  modTime : ℤ
deriving DecidableEq, Repr

/-- The cached fields of a `BaseFileManager` record: `current` and
`lastModTime`. -/
structure MgrState where
  current : List Char
  lastModTime : ℤ
deriving DecidableEq, Repr

/-- Embeds `strings.TrimSpace`: drop leading and trailing Unicode whitespace. -/
def trimSpace (l : List Char) : List Char :=
  ((l.dropWhile goIsSpace).reverse.dropWhile goIsSpace).reverse

/-- Embeds `BaseFileManager.Load`: a missing (or unreadable) file is an error and
leaves the record untouched; otherwise the trimmed content is cached
together with the file's modification time and returned. -/
def LoadOp (fs : Option FileCell) (st : MgrState) :
    Except Unit (List Char) × MgrState :=
  match fs with
  | none => (Except.error (), st)
  | some cell =>
    let content := trimSpace cell.data
    (Except.ok content, ⟨content, cell.modTime⟩)

/-- Embeds `BaseFileManager.IsModified`: strictly newer storage modification time
( `modTime.After(lastModTime)` ); a stat failure reads as not modified. -/
def IsModifiedOp (fs : Option FileCell) (st : MgrState) : Bool :=
  match fs with
  | none => false
  | some cell => cell.modTime > st.lastModTime

/-- Embeds `BaseFileManager.GetCurrent`: reload when stale or never loaded,
falling back to the cached text when the reload fails. -/
def GetCurrentOp (fs : Option FileCell) (st : MgrState) :
    List Char × MgrState :=
  if IsModifiedOp fs st || st.current == [] then
    match LoadOp fs st with
    | (Except.ok c, st') => (c, st')
    | (Except.error _, _) => (st.current, st)
  else (st.current, st)

/-- Embeds `BaseFileManager.Save`: directory creation and the write can each
fail, in which case storage, cached text and cached modification time are
all left as they were and an error is returned; on success the blob and
then the cached record are refreshed (the post-write `Stat` sees the file
just written). -/
def SaveOp (dirOk writeOk : Bool) (newMod : ℤ) (fs : Option FileCell)
    (st : MgrState) (content : List Char) :
    Except Unit Unit × Option FileCell × MgrState :=
  if ¬dirOk then (Except.error (), fs, st)
  else if ¬writeOk then (Except.error (), fs, st)
  else (Except.ok (), some ⟨content, newMod⟩, ⟨content, newMod⟩)

/-- Embeds `BaseFileManager.Update` is exactly `Save`. -/
def UpdateOp (dirOk writeOk : Bool) (newMod : ℤ) (fs : Option FileCell)
    (st : MgrState) (content : List Char) :
    Except Unit Unit × Option FileCell × MgrState :=
  SaveOp dirOk writeOk newMod fs st content

/-! ### `part_003`: the context assembler -/

/-- Embeds `ContextData`. -/
structure ContextData where
  title : List Char
  summary : List Char
  worldview : List Char
  characters : List Char
  chapter : List Char
  plan : List Char
deriving DecidableEq, Repr

/-- The default-substitution steps of
`ContextBuilder.BuildTokenAwareContext`: empty title, summary and
worldview are replaced by their fixed placeholders; characters,
chapter and plan pass through unchanged (the manager/storage fetches that
produce the raw values are abstracted into the `raw` record). -/
def applyDefaults (raw : ContextData) : ContextData :=
  { title := if raw.title = [] then "无章节标题".toList else raw.title
    summary := if raw.summary = [] then "暂无章节摘要".toList else raw.summary
    worldview :=
      if raw.worldview = [] then "暂无世界观设定".toList else raw.worldview
    characters := raw.characters
    chapter := raw.chapter
    plan := raw.plan }

/-- Embeds `ContextBuilder.FormatContext`: the `fmt.Sprintf` template with the six
`%s` slots filled in the source's argument order. -/
def formatContext (ctx : ContextData) : List Char :=
  "章节标题: ".toList ++ ctx.title ++
  "\n\n章节摘要:\n".toList ++ ctx.summary ++
  "\n\n世界观:\n".toList ++ ctx.worldview ++
  "\n\n角色信息:\n".toList ++ ctx.characters ++
  "\n\n当前章节:\n".toList ++ ctx.chapter ++
  "\n\n规划信息:\n".toList ++ ctx.plan

/-- Position of the first occurrence of `pat` in `l` (`none` when absent):
used to state in which order the rendered sections appear. -/
def posOf (pat l : List Char) : Option Nat :=
  (List.range (l.length + 1)).find? (fun i => pat.isPrefixOf (l.drop i))

/-! ### Derived quantities and spec-side formulations used by the claims -/

/-- Sum of the individual token estimates of a list of pieces. -/
def sumTok (ls : List (List Char)) : ℤ :=
  (ls.map (fun l => (Count l : ℤ))).sum

/-- Total codepoint count of the CJK-dominant fields. -/
def cjkChars (ws : List (List Char)) : ℕ :=
  ((ws.filter (fun w => isChineseWord w)).map List.length).sum

/-- Number of Latin/mixed fields (neither CJK-dominant nor
numeric-dominant). -/
def latinCount (ws : List (List Char)) : ℕ :=
  (ws.filter (fun w => !isChineseWord w && !isNumberWord w)).length

/-- Number of numeric-dominant (and not CJK-dominant) fields. -/
def numCount (ws : List (List Char)) : ℕ :=
  (ws.filter (fun w => !isChineseWord w && isNumberWord w)).length

/-- Total punctuation codepoints pooled over the Latin/mixed fields. -/
def punctCount (ws : List (List Char)) : ℕ :=
  ((ws.filter (fun w => !isChineseWord w && !isNumberWord w)).map
    (fun w => w.countP (fun c => goIsPunct c))).sum

/-- The estimator formula exactly as claim C6 states it: one single floor
of the sum of per-token rational contributions (CJK token: codepoints
× 1.5; numeric token: 0.5; other: 0.75 + 0.33 per punctuation codepoint).
All contributions are multiples of 1/100, so the sum is computed exactly
in hundredths (1.5 = 150/100, 0.5 = 50/100, 0.75 = 75/100, 0.33 = 33/100)
and the single floor is one division by 100. -/
def countC6Claim (s : List Char) : ℤ :=
  (((fields s).map (fun w =>
      if isChineseWord w then 150 * w.length
      else if isNumberWord w then 50
      else 75 + 33 * w.countP (fun c => goIsPunct c))).sum : ℤ) / 100

/-- Validity of a weight set as the claims use it: all fractions
non-negative and the sum within ±1% of 1. -/
def ValidWeights (ws : List (String × ℚ)) : Prop :=
  (∀ p ∈ ws, 0 ≤ p.2) ∧ |(ws.map Prod.snd).sum - 1| ≤ 1 / 100

/-- Number of categories carrying a nonzero weight. -/
def nonzeroCount (ws : List (String × ℚ)) : ℕ :=
  (ws.filter (fun p => decide (p.2 ≠ 0))).length

/-- The allocator algorithm exactly as claim C4 states it: per-category
`ceil(total*weight)`; on overflow rescale to `floor(ceiling*total/sum)`
with the floor of 1 applied exactly to the categories of positive
weight. -/
def allocC4Claim (total : ℤ) (ws : List (String × ℚ)) :
    List (String × ℤ) :=
  let c := ws.map (fun p => (p.1, ⌈(total : ℚ) * p.2⌉))
  let s := sumVals c
  if s > total then
    (ws.zip c).map (fun q =>
      if 0 < q.1.2 then (q.1.1, max 1 ⌊(q.2.2 : ℚ) * total / s⌋)
      else (q.1.1, ⌊(q.2.2 : ℚ) * total / s⌋))
  else c

/-- The allocator algorithm as amended: per-category
`floor(total*weight + 0.999)`; when these overflow the total, every
category — zero-weight ones included — is rescaled to
`max 1 (floor(base*total/sum))`, in a single pass. -/
def allocC4Amended (total : ℤ) (ws : List (String × ℚ)) :
    List (String × ℤ) :=
  let base := fun w : ℚ => ⌊(total : ℚ) * w + 999 / 1000⌋
  let s := (ws.map (fun p => base p.2)).sum
  ws.map (fun p =>
    (p.1, if s ≤ total then base p.2 else max 1 ⌊(base p.2 : ℚ) * total / s⌋))

/-- The six labelled sections of the rendered context, in the order the
source emits them. -/
def renderSections (raw : ContextData) : List (List Char) :=
  ["章节标题: ".toList ++
     (if raw.title = [] then "无章节标题".toList else raw.title),
   "章节摘要:\n".toList ++
     (if raw.summary = [] then "暂无章节摘要".toList else raw.summary),
   "世界观:\n".toList ++
     (if raw.worldview = [] then "暂无世界观设定".toList else raw.worldview),
   "角色信息:\n".toList ++ raw.characters,
   "当前章节:\n".toList ++ raw.chapter,
   "规划信息:\n".toList ++ raw.plan]

/-! ### Concrete inputs used by counterexamples and witnesses -/

/-- Embeds `DefaultTokenPercentages()`. -/
def defaultPercentages : TokenPercentages :=
  ⟨15/100, 1/10, 1/10, 6/10, 5/100⟩

/-- A valid weight set with two half-weight categories and four
zero-weight categories. -/
def wsManyZero : List (String × ℚ) :=
  [("a", 1/2), ("b", 1/2), ("z1", 0), ("z2", 0), ("z3", 0), ("z4", 0)]

/-- A valid weight set with one vanishingly small positive weight. -/
def wsTiny : List (String × ℚ) :=
  [("a", 1/1000000000), ("b", 1)]

/-- A valid weight set whose first product `total*weight` has fractional
part strictly between 0 and 0.001 at `total = 10000`. -/
def wsFrac : List (String × ℚ) :=
  [("a", 25000001/100000000), ("b", 74999999/100000000)]

/-- A valid weight set with a zero-weight category that still triggers the
rescale pass. -/
def wsOneZero : List (String × ℚ) :=
  [("a", 1/2), ("b", 1/2), ("z", 0)]

/-- The spec's concrete allocation scenario weights. -/
def wsScenario : List (String × ℚ) :=
  [("plan", 6/10), ("character", 3/100), ("worldview", 4/100),
   ("index", 3/100), ("chapters", 3/10)]

/-- The C1 counterexample text: a short first line, then a line whose
words each estimate to zero but whose rejoined form does not. -/
def c1Text : List Char := "x\na  b c d e".toList

/-- The single-space rejoining of the first `j` whitespace-delimited words
of a line: the shape of the partially-truncated piece the word-level pass
produces. -/
def wordPiece (line : List Char) (j : ℕ) : List Char :=
  joinSep [' '] ((fields line).take j)

/-- The four-codepoint CJK phrase of the C2 scenario. -/
def cjkPhrase : List Char := "斗破苍穹".toList

/-- Text of 300 repeats of the phrase: 1200 codepoints, no whitespace. -/
def cjkText : List Char := (List.replicate 300 cjkPhrase).flatten

/-! ## Theorems -/

theorem countClasses_foldl (ws : List (List Char)) :
    ∀ acc : ClassCounts,
      List.foldl classifyWord acc ws =
        ⟨acc.chineseChars + cjkChars ws, acc.englishWords + latinCount ws,
         acc.numbers + numCount ws, acc.punctuation + punctCount ws⟩ := by
  induction ws with
  | nil =>
    intro acc
    simp [cjkChars, latinCount, numCount, punctCount]
  | cons w rest ih =>
    intro acc
    simp only [List.foldl_cons, ih]
    unfold classifyWord
    by_cases h1 : isChineseWord w
    · simp [cjkChars, latinCount, numCount, punctCount, List.filter_cons, h1,
        ClassCounts.mk.injEq]
      omega
    · by_cases h2 : isNumberWord w
      · simp [cjkChars, latinCount, numCount, punctCount, List.filter_cons,
          h1, h2, ClassCounts.mk.injEq]
        omega
      · simp [cjkChars, latinCount, numCount, punctCount, List.filter_cons,
          h1, h2, ClassCounts.mk.injEq]
        omega

/-- C6 (counterexample): the claimed single-floor formula disagrees with
`SimpleTokenCounter.Count` already on the text `"1 a"`: the code's
separately floored terms give 0, the claim's single floor of
`0.5 + 0.75` gives 1. -/
theorem countC6_claim_false :
    (Count "1 a".toList : ℤ) ≠ countC6Claim "1 a".toList ∧
    (Count "1 a".toList : ℤ) = 0 ∧ countC6Claim "1 a".toList = 1 := by
  refine ⟨?_, ?_, ?_⟩ <;> decide

/-- C6 (amended): for every text, `estimate(text)` equals
`⌊1.5·C⌋ + ⌊0.75·E⌋ + N/2 + P/3` — four separately floored/divided
terms — where `C` is the total codepoint count of the CJK-dominant
whitespace tokens, `E` the number of remaining non-numeric tokens, `N` the
number of numeric-dominant tokens, and `P` the punctuation codepoints
pooled across the non-CJK non-numeric tokens; numeric tokens and
punctuation contribute via integer division, not 0.5/0.33 each inside one
floored sum. -/
theorem count_eq_classTotals (s : List Char) :
    Count s =
      3 * cjkChars (fields s) / 2 + 3 * latinCount (fields s) / 4 +
        numCount (fields s) / 2 + punctCount (fields s) / 3 := by
  unfold Count
  by_cases hs : s = []
  · simp [hs, fields, fieldsAux, cjkChars, latinCount, numCount, punctCount]
  · simp only [if_neg hs]
    unfold countClasses
    rw [countClasses_foldl]
    simp

theorem floor_add_floor_le (a b : ℚ) : ⌊a⌋ + ⌊b⌋ ≤ ⌊a + b⌋ := by
  refine Int.le_floor.mpr ?_
  push_cast
  exact add_le_add (Int.floor_le a) (Int.floor_le b)

theorem sum_max_floor (qs : List ℚ) (h : ∀ q ∈ qs, 0 ≤ q) :
    ((qs.map (fun q => max 1 ⌊q⌋)).sum : ℤ) ≤ (qs.length : ℤ) + ⌊qs.sum⌋ := by
  induction qs with
  | nil => simp
  | cons q rest ih =>
    simp only [List.map_cons, List.sum_cons, List.length_cons]
    have hq : 0 ≤ q := h q (List.mem_cons_self _ _)
    have hrest := ih (fun x hx => h x (List.mem_cons_of_mem _ hx))
    have h1 : max 1 ⌊q⌋ ≤ ⌊q⌋ + 1 := by
      have h0 : (0 : ℤ) ≤ ⌊q⌋ := Int.floor_nonneg.mpr hq
      omega
    have h2 : ⌊q⌋ + ⌊rest.sum⌋ ≤ ⌊q + rest.sum⌋ := floor_add_floor_le _ _
    push_cast
    omega

theorem forall2_map_self {α β : Type} (f : α → β) (R : α → β → Prop)
    (l : List α) (h : ∀ x ∈ l, R x (f x)) : List.Forall₂ R l (l.map f) := by
  induction l with
  | nil => simp
  | cons a l ih =>
    exact List.Forall₂.cons (h a (List.mem_cons_self _ _))
      (ih fun x hx => h x (List.mem_cons_of_mem _ hx))

theorem sum_snd_cast (l : List (String × ℤ)) :
    ((l.map (fun p => ((p.2 : ℤ) : ℚ))).sum) = ((sumVals l : ℤ) : ℚ) := by
  induction l with
  | nil => simp [sumVals]
  | cons p rest ih => simp [sumVals, List.map_cons, List.sum_cons, ih]

theorem allocInit_val_nonneg (total : ℤ) (ws : List (String × ℚ))
    (htot : 0 < total) (hw : ∀ p ∈ ws, 0 ≤ p.2) :
    ∀ p ∈ allocInit total ws, 0 ≤ p.2 := by
  intro p hp
  unfold allocInit at hp
  obtain ⟨w, hwmem, rfl⟩ := List.mem_map.mp hp
  have h1 : (0 : ℚ) ≤ (total : ℚ) * w.2 + 999 / 1000 := by
    have : (0 : ℚ) ≤ (total : ℚ) * w.2 :=
      mul_nonneg (by exact_mod_cast htot.le) (hw w hwmem)
    linarith
  simp only [truncQ, if_pos h1]
  exact Int.floor_nonneg.mpr h1

/-- C3 (counterexample): the claimed conservation bound and the claimed
floor-of-1 guarantee both fail on the code.  With six categories, four of
weight zero, and `total = 3`, the rescale pass raises every category —
zero-weight ones included — to 1, so the sum 6 exceeds
`total + nonzero-weight count = 5`.  And with weights
`{a: 10⁻⁹, b: 1}` and `total = 10 ≥ 2 = category count`, category `a`
has positive weight yet receives 0, because `int(10·10⁻⁹ + 0.999) = 0`
and no rescale runs. -/
theorem alloc_conservation_claim_false :
    (ValidWeights wsManyZero ∧ (0 : ℤ) < 3 ∧
      ¬(sumVals (AllocateTokens 3 wsManyZero) ≤
          3 + (nonzeroCount wsManyZero : ℤ))) ∧
    (ValidWeights wsTiny ∧ (2 : ℤ) ≤ 10 ∧ (0 : ℚ) < 1 / 1000000000 ∧
      lookupAlloc (AllocateTokens 10 wsTiny) "a" = 0 ∧
      wsTiny.length = 2) := by
  constructor
  · refine ⟨⟨?_, ?_⟩, by norm_num, ?_⟩
    · intro p hp
      simp only [wsManyZero, List.mem_cons, List.not_mem_nil, or_false] at hp
      rcases hp with h | h | h | h | h | h <;> subst h <;> norm_num
    · norm_num [wsManyZero]
    · norm_num [AllocateTokens, allocInit, truncQ, sumVals, wsManyZero,
        nonzeroCount, List.filter]
  · refine ⟨⟨?_, ?_⟩, by norm_num, by norm_num, ?_, by simp [wsTiny]⟩
    · intro p hp
      simp only [wsTiny, List.mem_cons, List.not_mem_nil, or_false] at hp
      rcases hp with h | h <;> subst h <;> norm_num
    · rw [show |(wsTiny.map Prod.snd).sum - 1| = 1/1000000000 by
        norm_num [wsTiny]]
      norm_num
    · norm_num [AllocateTokens, allocInit, truncQ, sumVals, wsTiny,
        lookupAlloc]

/-- C3 (amended): for every `total > 0` and valid weight set, the
allocator's ceilings sum to at most `total` plus the number of ALL
categories (the rescale floor raises zero-weight categories to 1 too, so
the slack is one per category, not one per nonzero-weight category); and a
category is guaranteed a ceiling ≥ 1 exactly when `total·weight ≥ 0.001`
(the `+0.999` round-up reaches 1); a positive weight below `0.001/total`
can still be starved to 0 when no rescale occurs. -/
theorem alloc_conservation_amended (total : ℤ) (ws : List (String × ℚ))
    (htot : 0 < total) (hw : ValidWeights ws) :
    sumVals (AllocateTokens total ws) ≤ total + (ws.length : ℤ) ∧
    List.Forall₂ (fun (w : String × ℚ) (a : String × ℤ) =>
        w.1 = a.1 ∧ (1 / 1000 ≤ (total : ℚ) * w.2 → 1 ≤ a.2))
      ws (AllocateTokens total ws) := by
  obtain ⟨hpos, -⟩ := hw
  have hinit := allocInit_val_nonneg total ws htot hpos
  unfold AllocateTokens
  by_cases hst : sumVals (allocInit total ws) > total
  · simp only [if_pos hst]
    constructor
    · -- sum bound in the rescale branch
      set alloc := allocInit total ws with halloc
      set s := sumVals alloc with hs
      have hs0 : (0 : ℤ) < s := lt_trans htot hst
      have hmapeq :
          (alloc.map (fun p => (p.1, max 1 (truncQ ((p.2 : ℚ) * total / s))))).map
              Prod.snd =
            (alloc.map (fun p => ((p.2 : ℚ) * ((total : ℚ) / (s : ℚ))))).map
              (fun q => max 1 ⌊q⌋) := by
        simp only [List.map_map]
        refine List.map_congr_left ?_
        intro p hp
        have hq : (0 : ℚ) ≤ (p.2 : ℚ) * total / s := by
          apply div_nonneg
          · exact mul_nonneg (by exact_mod_cast hinit p hp)
              (by exact_mod_cast htot.le)
          · exact_mod_cast hs0.le
        simp only [Function.comp]
        rw [truncQ, if_pos hq, mul_div_assoc]
      have hqs : ∀ q ∈ alloc.map
          (fun p => ((p.2 : ℚ) * ((total : ℚ) / (s : ℚ)))), 0 ≤ q := by
        intro q hq
        obtain ⟨p, hp, rfl⟩ := List.mem_map.mp hq
        apply mul_nonneg (by exact_mod_cast hinit p hp)
        apply div_nonneg (by exact_mod_cast htot.le) (by exact_mod_cast hs0.le)
      have hbound := sum_max_floor _ hqs
      have hsum : (alloc.map
          (fun p => ((p.2 : ℚ) * ((total : ℚ) / (s : ℚ))))).sum = (total : ℚ) := by
        have hmul : (alloc.map
            (fun p => ((p.2 : ℚ) * ((total : ℚ) / (s : ℚ))))).sum =
            (alloc.map (fun p => ((p.2 : ℤ) : ℚ))).sum * ((total : ℚ) / (s : ℚ)) := by
          rw [← List.sum_map_mul_right]
        rw [hmul, sum_snd_cast, ← hs]
        field_simp
      rw [sumVals, hmapeq]
      rw [hsum] at hbound
      simp only [Int.floor_intCast, List.length_map] at hbound
      calc ((alloc.map fun p => ((p.2 : ℚ) * ((total : ℚ) / (s : ℚ)))).map
              (fun q => max 1 ⌊q⌋)).sum
          ≤ ((alloc.map fun p => ((p.2 : ℚ) * ((total : ℚ) / (s : ℚ)))).length : ℤ)
              + total := by
            simpa using hbound
        _ ≤ total + (ws.length : ℤ) := by
            simp only [List.length_map, halloc, allocInit, List.length_map]
            omega
    · -- every category gets ≥ 1 in the rescale branch
      unfold allocInit
      rw [List.map_map]
      refine forall2_map_self _ _ _ ?_
      intro w hwmem
      refine ⟨rfl, fun _ => ?_⟩
      simp only [Function.comp]
      exact le_max_left _ _
  · simp only [if_neg hst]
    push_neg at hst
    constructor
    · have hlen : (0 : ℤ) ≤ (ws.length : ℤ) := by positivity
      omega
    · unfold allocInit
      refine forall2_map_self _ _ _ ?_
      intro w hwmem
      refine ⟨rfl, fun hge => ?_⟩
      have h1 : (1 : ℚ) ≤ (total : ℚ) * w.2 + 999 / 1000 := by linarith
      have h0 : (0 : ℚ) ≤ (total : ℚ) * w.2 + 999 / 1000 := by linarith
      simp only [truncQ, if_pos h0]
      exact_mod_cast Int.le_floor.mpr (by exact_mod_cast h1)

/-- Witness for C3 (amended) at the spec's concrete scenario weights and
`total = 128000`. -/
theorem alloc_conservation_amended_witness :
    (0 : ℤ) < 128000 ∧ ValidWeights wsScenario ∧
    (sumVals (AllocateTokens 128000 wsScenario) ≤
        128000 + (wsScenario.length : ℤ) ∧
      List.Forall₂ (fun (w : String × ℚ) (a : String × ℤ) =>
          w.1 = a.1 ∧ (1 / 1000 ≤ (128000 : ℚ) * w.2 → 1 ≤ a.2))
        wsScenario (AllocateTokens 128000 wsScenario)) := by
  have hv : ValidWeights wsScenario := by
    constructor
    · intro p hp
      simp only [wsScenario, List.mem_cons, List.not_mem_nil, or_false] at hp
      rcases hp with h | h | h | h | h <;> subst h <;> norm_num
    · norm_num [wsScenario]
  exact ⟨by norm_num, hv,
    alloc_conservation_amended 128000 wsScenario (by norm_num) hv⟩

/-- C4 (counterexample): the claimed algorithm (`ceil(total*weight)`,
rescale flooring only positive-weight categories at 1) disagrees with
`TokenBudget.AllocateTokens` at two concrete inputs.  At
`total = 10000`, `weights = {a: 0.25000001, b: 0.74999999}` the code's
`int(x+0.999)` yields `{a: 2500, b: 7500}` (sum 10000, no rescale) while
true `ceil` yields sum 10001 and a rescale to `{a: 2500, b: 7499}`.  At
`total = 3`, `weights = {a: 0.5, b: 0.5, z: 0}` the code's rescale raises
the zero-weight `z` to 1 while the claim leaves it at 0. -/
theorem alloc_algorithm_claim_false :
    AllocateTokens 10000 wsFrac ≠ allocC4Claim 10000 wsFrac ∧
    AllocateTokens 10000 wsFrac = [("a", 2500), ("b", 7500)] ∧
    allocC4Claim 10000 wsFrac = [("a", 2500), ("b", 7499)] ∧
    AllocateTokens 3 wsOneZero ≠ allocC4Claim 3 wsOneZero ∧
    AllocateTokens 3 wsOneZero = [("a", 1), ("b", 1), ("z", 1)] ∧
    allocC4Claim 3 wsOneZero = [("a", 1), ("b", 1), ("z", 0)] := by
  have h1 : AllocateTokens 10000 wsFrac = [("a", 2500), ("b", 7500)] := by
    norm_num [AllocateTokens, allocInit, truncQ, sumVals, wsFrac]
  have h2 : allocC4Claim 10000 wsFrac = [("a", 2500), ("b", 7499)] := by
    have e1 : ⌈((10000:ℤ):ℚ) * (25000001/100000000)⌉ = 2501 := by
      rw [show ((10000:ℤ):ℚ) * (25000001/100000000) = 25000001/10000 by
        norm_num]
      rw [Int.ceil_eq_iff]
      norm_num
    have e2 : ⌈((10000:ℤ):ℚ) * (74999999/100000000)⌉ = 7500 := by
      rw [show ((10000:ℤ):ℚ) * (74999999/100000000) = 74999999/10000 by
        norm_num]
      rw [Int.ceil_eq_iff]
      norm_num
    simp only [allocC4Claim, wsFrac, List.map, sumVals, List.zip,
      List.zipWith, List.sum_cons, List.sum_nil, e1, e2]
    norm_num
  have h3 : AllocateTokens 3 wsOneZero = [("a", 1), ("b", 1), ("z", 1)] := by
    norm_num [AllocateTokens, allocInit, truncQ, sumVals, wsOneZero]
  have h4 : allocC4Claim 3 wsOneZero = [("a", 1), ("b", 1), ("z", 0)] := by
    have e1 : ⌈((3:ℤ):ℚ) * (1/2)⌉ = 2 := by
      rw [show ((3:ℤ):ℚ) * (1/2) = 3/2 by norm_num]
      rw [Int.ceil_eq_iff]
      norm_num
    have e2 : ⌈((3:ℤ):ℚ) * (0:ℚ)⌉ = 0 := by
      norm_num
    simp only [allocC4Claim, wsOneZero, List.map, sumVals, List.zip,
      List.zipWith, List.sum_cons, List.sum_nil, e1, e2]
    norm_num
  refine ⟨?_, h1, h2, ?_, h3, h4⟩
  · rw [h1, h2]; simp
  · rw [h3, h4]; simp

/-- C4 (amended): for every `total > 0` and non-negative weight map, the
per-category base ceiling is `floor(total*weight + 0.999)` — which is
`ceil(total*weight)` except when the fractional part of `total*weight`
lies in `(0, 0.001)` — and when the bases overflow the total, every
category (zero-weight included) is rescaled to
`max 1 (floor(base*total/sum))` in a single pass. -/
theorem alloc_algorithm_amended (total : ℤ) (ws : List (String × ℚ))
    (htot : 0 < total) (hw : ∀ p ∈ ws, 0 ≤ p.2) :
    AllocateTokens total ws = allocC4Amended total ws := by
  have hbase : ∀ p ∈ ws,
      truncQ ((total : ℚ) * p.2 + 999 / 1000) =
        ⌊(total : ℚ) * p.2 + 999 / 1000⌋ := by
    intro p hp
    have h0 : (0 : ℚ) ≤ (total : ℚ) * p.2 + 999 / 1000 := by
      have := mul_nonneg (show (0:ℚ) ≤ (total : ℚ) by exact_mod_cast htot.le)
        (hw p hp)
      linarith
    simp [truncQ, if_pos h0]
  have hinitEq : allocInit total ws =
      ws.map (fun p => (p.1, ⌊(total : ℚ) * p.2 + 999 / 1000⌋)) := by
    unfold allocInit
    exact List.map_congr_left (fun p hp => by rw [hbase p hp])
  have hsums : sumVals (allocInit total ws) =
      (ws.map (fun p => ⌊(total : ℚ) * p.2 + 999 / 1000⌋)).sum := by
    rw [hinitEq]
    unfold sumVals
    rw [List.map_map]
    rfl
  have hvalnn : ∀ p ∈ ws, (0:ℤ) ≤ ⌊(total : ℚ) * p.2 + 999 / 1000⌋ := by
    intro p hp
    refine Int.floor_nonneg.mpr ?_
    have := mul_nonneg (show (0:ℚ) ≤ (total : ℚ) by exact_mod_cast htot.le)
      (hw p hp)
    linarith
  unfold AllocateTokens allocC4Amended
  by_cases hst : sumVals (allocInit total ws) > total
  · simp only [if_pos hst]
    set S := sumVals (allocInit total ws) with hS
    have hnot : ¬((ws.map fun p => ⌊(total : ℚ) * p.2 + 999 / 1000⌋).sum ≤
        total) := by
      rw [← hsums]; omega
    simp only [if_neg hnot]
    rw [hinitEq, List.map_map]
    refine List.map_congr_left ?_
    intro p hp
    have hs0 : (0:ℤ) < S := lt_trans htot hst
    have hq : (0 : ℚ) ≤ (⌊(total : ℚ) * p.2 + 999 / 1000⌋ : ℚ) * total /
        (S : ℚ) := by
      apply div_nonneg
      · exact mul_nonneg (by exact_mod_cast hvalnn p hp)
          (by exact_mod_cast htot.le)
      · exact_mod_cast hs0.le
    simp only [Function.comp]
    rw [truncQ, if_pos hq, hsums]
  · simp only [if_neg hst]
    have hyes : (ws.map fun p => ⌊(total : ℚ) * p.2 + 999 / 1000⌋).sum ≤
        total := by
      rw [← hsums]; omega
    simp only [if_pos hyes]
    exact hinitEq

/-- Witness for C4 (amended) at the spec's concrete scenario. -/
theorem alloc_algorithm_amended_witness :
    (0 : ℤ) < 128000 ∧ (∀ p ∈ wsScenario, (0:ℚ) ≤ p.2) ∧
    AllocateTokens 128000 wsScenario = allocC4Amended 128000 wsScenario := by
  have hnn : ∀ p ∈ wsScenario, (0:ℚ) ≤ p.2 := by
    intro p hp
    simp only [wsScenario, List.mem_cons, List.not_mem_nil, or_false] at hp
    rcases hp with h | h | h | h | h <;> subst h <;> norm_num
  exact ⟨by norm_num, hnn,
    alloc_algorithm_amended 128000 wsScenario (by norm_num) hnn⟩

theorem accumWords_spec (ws : List (List Char)) :
    ∀ t m : ℤ, t ≤ m →
      ∃ j, j ≤ ws.length ∧ accumWords ws t m = ws.take j ∧
        t + sumTok (ws.take j) ≤ m := by
  induction ws with
  | nil =>
    intro t m ht
    exact ⟨0, by simp, by simp [accumWords], by simpa [sumTok]⟩
  | cons w rest ih =>
    intro t m ht
    by_cases h : t + (Count w : ℤ) > m
    · refine ⟨0, by simp, ?_, by simpa [sumTok]⟩
      simp [accumWords, if_pos h]
    · push_neg at h
      obtain ⟨j, hj, heq, hsum⟩ := ih (t + (Count w : ℤ)) m h
      refine ⟨j + 1, by simp; omega, ?_, ?_⟩
      · simp only [accumWords, if_neg (not_lt.mpr h), List.take_succ_cons]
        rw [heq]
      · simp only [List.take_succ_cons, sumTok, List.map_cons, List.sum_cons]
        simp only [sumTok] at hsum
        omega

theorem truncLines_spec (lines : List (List Char)) :
    ∀ t c : ℤ, t ≤ c →
      ∃ k j, k ≤ lines.length ∧ t + sumTok (lines.take k) ≤ c ∧
        (truncLines lines t c =
            (lines.take k, t + sumTok (lines.take k)) ∨
          ∃ hk : k < lines.length,
            sumTok ((fields (lines.get ⟨k, hk⟩)).take j) ≤
                c - (t + sumTok (lines.take k)) ∧
              wordPiece (lines.get ⟨k, hk⟩) j ≠ [] ∧
              truncLines lines t c =
                (lines.take k ++ [wordPiece (lines.get ⟨k, hk⟩) j],
                  t + sumTok (lines.take k) +
                    (Count (wordPiece (lines.get ⟨k, hk⟩) j) : ℤ))) := by
  induction lines with
  | nil =>
    intro t c ht
    exact ⟨0, 0, by simp, by simpa [sumTok], Or.inl (by simp [truncLines, sumTok])⟩
  | cons line rest ih =>
    intro t c ht
    by_cases hover : t + (Count line : ℤ) > c
    · by_cases hlt : t < c
      · have hm : (0 : ℤ) ≤ c - t := by omega
        obtain ⟨j, hj, heqw, hsumw⟩ := accumWords_spec (fields line) 0 (c - t) hm
        have hnotle : ¬(c - t ≤ 0) := by omega
        have htl : truncateLineByTokens line (c - t) =
            joinSep [' '] ((fields line).take j) := by
          rw [truncateLineByTokens, if_neg hnotle, heqw]
        by_cases hempty : joinSep [' '] ((fields line).take j) = []
        · refine ⟨0, 0, by simp, by simpa [sumTok], Or.inl ?_⟩
          simp only [truncLines, if_pos hover, if_pos hlt, htl, hempty,
            if_pos rfl]
          simp [sumTok]
        · refine ⟨0, j, by simp, by simpa [sumTok] using hlt.le, Or.inr ?_⟩
          refine ⟨by simp, ?_, ?_, ?_⟩
          · simpa [sumTok] using hsumw
          · simpa [wordPiece] using hempty
          · simp only [truncLines, if_pos hover, if_pos hlt, htl]
            rw [if_neg hempty]
            simp [sumTok, wordPiece]
      · refine ⟨0, 0, by simp, by simpa [sumTok], Or.inl ?_⟩
        simp only [truncLines, if_pos hover, if_neg hlt]
        simp [sumTok]
    · push_neg at hover
      obtain ⟨k, j, hk, hsum, hres⟩ := ih (t + (Count line : ℤ)) c hover
      refine ⟨k + 1, j, by simpa using hk, ?_, ?_⟩
      · simp only [List.take_succ_cons, sumTok, List.map_cons, List.sum_cons]
        simp only [sumTok] at hsum
        omega
      · have hstep : truncLines (line :: rest) t c =
            (line :: (truncLines rest (t + (Count line : ℤ)) c).1,
              (truncLines rest (t + (Count line : ℤ)) c).2) := by
          rw [truncLines, if_neg (not_lt.mpr hover)]
        rcases hres with heq | ⟨hklt, hs, hne, heq⟩
        · left
          rw [hstep, heq]
          simp only [List.take_succ_cons, sumTok, List.map_cons, List.sum_cons]
          rw [Prod.mk.injEq]
          exact ⟨rfl, by ring⟩
        · right
          refine ⟨by simpa using hklt, ?_, ?_, ?_⟩
          · simp only [List.take_succ_cons, List.get_cons_succ, sumTok,
              List.map_cons, List.sum_cons] at *
            omega
          · simpa using hne
          · rw [hstep, heq]
            simp only [List.take_succ_cons, List.get_cons_succ, sumTok,
              List.map_cons, List.sum_cons, List.cons_append]
            rw [Prod.mk.injEq]
            exact ⟨rfl, by ring⟩

/-- C1 (counterexample): at `text = "x\na  b c d e"` and `ceiling = 1` the
truncator returns `("x\na b c d e", 3)`: the reported count 3 exceeds the
ceiling, re-estimating the returned string gives 4 > 1, and the returned
string is not a codepoint prefix of the input (the double space was
collapsed by the single-space rejoin). -/
theorem truncateText_claim_false :
    (0 : ℤ) ≤ 1 ∧
    truncateText c1Text 1 = ("x\na b c d e".toList, 3) ∧
    ¬((truncateText c1Text 1).2 ≤ 1) ∧
    ¬((Count (truncateText c1Text 1).1 : ℤ) ≤ 1) ∧
    ¬((truncateText c1Text 1).1 <+: c1Text) := by
  refine ⟨by norm_num, by decide, by decide, by decide, by decide⟩

/-- C1 (amended): for every text and ceiling ≥ 0, `truncateText` returns
either (a) the newline-join of an initial run of the text's lines, whose
per-line estimates sum to at most the ceiling, with that sum as the
reported count, or (b) that join extended by one piece made of an initial
run of the next line's whitespace-delimited words rejoined with single
spaces, where the sum of the per-word estimates fits the remaining budget
but the reported count adds a re-estimate of the rejoined piece.  The
reported count stays within the ceiling in case (a) and can exceed it
only through the re-estimated piece of case (b); a re-estimate of the
returned string, however, can exceed the ceiling in either case, because
the estimator's separately floored class terms pool across the rejoined
words and the newline-joined lines alike.  The returned string is a
prefix of the input only up to whitespace normalization. -/
theorem truncateText_piecewise (text : List Char) (c : ℤ) (hc : 0 ≤ c) :
    ∃ k j, k ≤ (splitNL text).length ∧
      sumTok ((splitNL text).take k) ≤ c ∧
      (truncateText text c =
          (joinSep ['\n'] ((splitNL text).take k),
            sumTok ((splitNL text).take k)) ∨
        ∃ hk : k < (splitNL text).length,
          sumTok ((fields ((splitNL text).get ⟨k, hk⟩)).take j) ≤
              c - sumTok ((splitNL text).take k) ∧
            wordPiece ((splitNL text).get ⟨k, hk⟩) j ≠ [] ∧
            truncateText text c =
              (joinSep ['\n'] ((splitNL text).take k ++
                  [wordPiece ((splitNL text).get ⟨k, hk⟩) j]),
                sumTok ((splitNL text).take k) +
                  (Count (wordPiece ((splitNL text).get ⟨k, hk⟩) j) : ℤ))) := by
  obtain ⟨k, j, hk, hsum, hres⟩ := truncLines_spec (splitNL text) 0 c hc
  refine ⟨k, j, hk, by simpa using hsum, ?_⟩
  rcases hres with heq | ⟨hklt, hs, hne, heq⟩
  · left
    rw [truncateText, heq]
    simp
  · right
    refine ⟨hklt, by simpa using hs, hne, ?_⟩
    rw [truncateText, heq]
    simp

/-- Witness for C1 (amended) at `text = "a\nb"`, `ceiling = 5`. -/
theorem truncateText_piecewise_witness :
    (0 : ℤ) ≤ 5 ∧
    ∃ k j, k ≤ (splitNL "a\nb".toList).length ∧
      sumTok ((splitNL "a\nb".toList).take k) ≤ 5 ∧
      (truncateText "a\nb".toList 5 =
          (joinSep ['\n'] ((splitNL "a\nb".toList).take k),
            sumTok ((splitNL "a\nb".toList).take k)) ∨
        ∃ hk : k < (splitNL "a\nb".toList).length,
          sumTok ((fields ((splitNL "a\nb".toList).get ⟨k, hk⟩)).take j) ≤
              5 - sumTok ((splitNL "a\nb".toList).take k) ∧
            wordPiece ((splitNL "a\nb".toList).get ⟨k, hk⟩) j ≠ [] ∧
            truncateText "a\nb".toList 5 =
              (joinSep ['\n'] ((splitNL "a\nb".toList).take k ++
                  [wordPiece ((splitNL "a\nb".toList).get ⟨k, hk⟩) j]),
                sumTok ((splitNL "a\nb".toList).take k) +
                  (Count (wordPiece ((splitNL "a\nb".toList).get ⟨k, hk⟩) j) : ℤ))) :=
  ⟨by norm_num, truncateText_piecewise "a\nb".toList 5 (by norm_num)⟩

theorem defaultAlloc100 :
    TokenBudgetManager.getAllocatedTokens ⟨100, defaultPercentages⟩ =
      [("plan", 15), ("character", 10), ("worldview", 10),
        ("chapters", 60), ("index", 5)] := by
  norm_num [TokenBudgetManager.getAllocatedTokens, AllocateTokens, allocInit,
    truncQ, sumVals, defaultPercentages, TokenPercentages.toMap]

/-- C7 (counterexample): with the default percentages, `maxTokens = 100`
and component `"default"` (allocation 0), the text `"a"` has estimate
`0 ≤ 0 = ceiling`, yet `TruncateToTokenLimit` returns `("", 0)`, not
`("a", 0)`: the `ceiling ≤ 0` edge rule runs before the idempotence
check, so idempotence does NOT extend to `ceiling ≤ 0`. -/
theorem truncate_idempotence_claim_false :
    TokenBudgetManager.getTokenAllocation ⟨100, defaultPercentages⟩
        "default" = 0 ∧
    (Count "a".toList : ℤ) ≤ 0 ∧
    TokenBudgetManager.truncateToTokenLimit ⟨100, defaultPercentages⟩
        "a".toList "default" = ([], 0) ∧
    (([], 0) : List Char × ℤ) ≠ ("a".toList, (Count "a".toList : ℤ)) := by
  have hd : TokenBudgetManager.getTokenAllocation ⟨100, defaultPercentages⟩
      "default" = 0 := by
    rw [TokenBudgetManager.getTokenAllocation, defaultAlloc100]
    decide
  refine ⟨hd, by decide, ?_, by decide⟩
  unfold TokenBudgetManager.truncateToTokenLimit
  rw [if_neg (by decide : ¬("a".toList = ([] : List Char)))]
  rw [hd]
  simp

/-- C7 (amended): if `estimate(text) ≤ ceiling` and additionally the
ceiling is positive (or the text is empty), `TruncateToTokenLimit`
returns exactly `(text, estimate(text))`; when the ceiling is ≤ 0 and the
text non-empty it returns `("", 0)` instead — the edge rule wins over
idempotence. -/
theorem truncate_idempotent_on_short (m : TokenBudgetManager)
    (text : List Char) (component : String)
    (hfit : (Count text : ℤ) ≤ m.getTokenAllocation component)
    (hpos : 0 < m.getTokenAllocation component ∨ text = []) :
    m.truncateToTokenLimit text component = (text, (Count text : ℤ)) := by
  rcases hpos with hpos | hempty
  · by_cases htext : text = []
    · subst htext
      unfold TokenBudgetManager.truncateToTokenLimit
      simp [Count]
    · unfold TokenBudgetManager.truncateToTokenLimit
      rw [if_neg htext, if_neg (not_le.mpr hpos), if_pos hfit]
  · subst hempty
    unfold TokenBudgetManager.truncateToTokenLimit
    simp [Count]

/-- Witness for C7 (amended): default percentages, `maxTokens = 100`,
component `"chapters"` (allocation 60), text `"hello world"`
(estimate 1). -/
theorem truncate_idempotent_on_short_witness :
    (Count "hello world".toList : ℤ) ≤
        TokenBudgetManager.getTokenAllocation ⟨100, defaultPercentages⟩
          "chapters" ∧
    (0 < TokenBudgetManager.getTokenAllocation ⟨100, defaultPercentages⟩
          "chapters" ∨ "hello world".toList = ([] : List Char)) ∧
    TokenBudgetManager.truncateToTokenLimit ⟨100, defaultPercentages⟩
        "hello world".toList "chapters" =
      ("hello world".toList, (Count "hello world".toList : ℤ)) := by
  have hc : TokenBudgetManager.getTokenAllocation ⟨100, defaultPercentages⟩
      "chapters" = 60 := by
    rw [TokenBudgetManager.getTokenAllocation, defaultAlloc100]
    decide
  have h1 : (Count "hello world".toList : ℤ) ≤
      TokenBudgetManager.getTokenAllocation ⟨100, defaultPercentages⟩
        "chapters" := by
    rw [hc]; decide
  have h2 : 0 < TokenBudgetManager.getTokenAllocation
      ⟨100, defaultPercentages⟩ "chapters" := by
    rw [hc]; decide
  exact ⟨h1, Or.inl h2,
    truncate_idempotent_on_short ⟨100, defaultPercentages⟩
      "hello world".toList "chapters" h1 (Or.inl h2)⟩

theorem lookupAlloc_absent (l : List (String × ℤ)) (k : String)
    (h : ∀ p ∈ l, p.1 ≠ k) : lookupAlloc l k = 0 := by
  unfold lookupAlloc
  rw [List.find?_eq_none.mpr]
  · rfl
  · intro p hp
    simpa using h p hp

theorem allocKeys (total : ℤ) (ws : List (String × ℚ)) :
    ∀ p ∈ AllocateTokens total ws, ∃ w ∈ ws, p.1 = w.1 := by
  unfold AllocateTokens allocInit
  intro p hp
  by_cases h : sumVals (ws.map fun p =>
      (p.1, truncQ ((total : ℚ) * p.2 + 999 / 1000))) > total
  · rw [if_pos h, List.map_map] at hp
    obtain ⟨w, hw, rfl⟩ := List.mem_map.mp hp
    exact ⟨w, hw, rfl⟩
  · rw [if_neg h] at hp
    obtain ⟨w, hw, rfl⟩ := List.mem_map.mp hp
    exact ⟨w, hw, rfl⟩

theorem default_component_alloc_zero (m : TokenBudgetManager) :
    m.getTokenAllocation "default" = 0 := by
  unfold TokenBudgetManager.getTokenAllocation
    TokenBudgetManager.getAllocatedTokens
  apply lookupAlloc_absent
  intro p hp
  obtain ⟨w, hw, heq⟩ := allocKeys _ _ p hp
  rw [heq]
  simp only [TokenPercentages.toMap, List.mem_cons, List.not_mem_nil,
    or_false] at hw
  rcases hw with h | h | h | h | h <;> rw [h] <;> simp

/-- C10: whenever a file manager has a token budget attached, its
limited-read path truncates under the fixed component name `"default"`,
which the five-key allocation map never contains, so the allocation lookup
yields 0 and `TruncateToLimit` returns `("", 0)` for every input text and
every ceiling argument — in particular `GetSummaryWithTokenLimit` returns
the empty string and count 0 for every ceiling and every summary. -/
theorem truncateToLimit_with_budget_empty (b : TokenBudgetManager)
    (text : List Char) (limit : ℤ) :
    BaseTruncateToLimit (some b) text limit = ([], 0) ∧
    ∀ (summary : List Char) (mt : ℤ),
      GetSummaryWithTokenLimit (some b) summary mt = ([], 0) := by
  have hmain : ∀ t : List Char,
      TokenBudgetManager.truncateToTokenLimit b t "default" = ([], 0) := by
    intro t
    unfold TokenBudgetManager.truncateToTokenLimit
    by_cases ht : t = []
    · rw [if_pos ht]
    · simp [ht, default_component_alloc_zero b]
  refine ⟨?_, ?_⟩
  · simp [BaseTruncateToLimit, hmain]
  · intro summary mt
    by_cases hs : summary = []
    · simp [GetSummaryWithTokenLimit, hs]
    · simp [GetSummaryWithTokenLimit, hs, BaseTruncateToLimit, hmain]

/-- C8 (counterexample): with cached record `("y", mtime 3)` and the
backing file changed to `" x"` at mtime `5 > 3`, `GetCurrent` returns the
TRIMMED text `"x"`, not the new storage content `" x"`: `Load` stores
`strings.TrimSpace` of the bytes it reads. -/
theorem getCurrent_claim_false :
    (GetCurrentOp (some ⟨" x".toList, 5⟩) ⟨"y".toList, 3⟩).1 = "x".toList ∧
    "x".toList ≠ " x".toList ∧ (5 : ℤ) > 3 ∧
    "x".toList ≠ "y".toList := by
  refine ⟨by decide, by decide, by decide, by decide⟩

/-- C8 (amended): if the backing file's modification time is strictly
newer than the cached one — or nothing has loaded yet (empty cache) — the
next `GetCurrent` reads storage and returns the new content with
surrounding Unicode whitespace trimmed (never the stale cached value),
caching that trimmed text together with the file's modification time. -/
theorem getCurrent_fresh (st : MgrState) (data : List Char) (mt : ℤ)
    (h : mt > st.lastModTime ∨ st.current = []) :
    (GetCurrentOp (some ⟨data, mt⟩) st).1 = trimSpace data ∧
    (GetCurrentOp (some ⟨data, mt⟩) st).2 = ⟨trimSpace data, mt⟩ := by
  rcases h with h | h
  · simp [GetCurrentOp, IsModifiedOp, LoadOp, h]
  · simp [GetCurrentOp, IsModifiedOp, LoadOp, h]

/-- Witness for C8 (amended): never-loaded record, file `"abc"` at
mtime 1. -/
theorem getCurrent_fresh_witness :
    ((1 : ℤ) > (0 : ℤ) ∨ ([] : List Char) = []) ∧
    ((GetCurrentOp (some ⟨"abc".toList, 1⟩) ⟨[], 0⟩).1 =
        trimSpace "abc".toList ∧
      (GetCurrentOp (some ⟨"abc".toList, 1⟩) ⟨[], 0⟩).2 =
        ⟨trimSpace "abc".toList, 1⟩) :=
  ⟨Or.inl (by norm_num),
    getCurrent_fresh ⟨[], 0⟩ "abc".toList 1 (Or.inl (by norm_num))⟩

/-- C9: `Update` (= `Save`) writes through to storage and refreshes the
cached text and modification time only when both the directory creation
and the file write succeed; on either failure the storage cell and the
cached record are left exactly as they were and an error is returned. -/
theorem update_write_through (dirOk writeOk : Bool) (newMod : ℤ)
    (fs : Option FileCell) (st : MgrState) (content : List Char) :
    (¬(dirOk = true ∧ writeOk = true) →
      UpdateOp dirOk writeOk newMod fs st content =
        (Except.error (), fs, st)) ∧
    (dirOk = true → writeOk = true →
      UpdateOp dirOk writeOk newMod fs st content =
        (Except.ok (), some ⟨content, newMod⟩, ⟨content, newMod⟩)) := by
  unfold UpdateOp SaveOp
  constructor
  · intro h
    cases dirOk <;> cases writeOk <;> simp_all
  · intro h1 h2
    subst h1
    subst h2
    simp

/-- Witness for C9: a failing directory creation leaves the record
`("c", 0)` and the (absent) storage cell untouched; a successful write of
`"new"` at mtime 7 refreshes both. -/
theorem update_write_through_witness :
    UpdateOp false true 7 none ⟨"c".toList, 0⟩ "new".toList =
        (Except.error (), none, ⟨"c".toList, 0⟩) ∧
    UpdateOp true true 7 none ⟨"c".toList, 0⟩ "new".toList =
        (Except.ok (), some ⟨"new".toList, 7⟩, ⟨"new".toList, 7⟩) :=
  ⟨(update_write_through false true 7 none ⟨"c".toList, 0⟩ "new".toList).1
      (by simp),
    (update_write_through true true 7 none ⟨"c".toList, 0⟩ "new".toList).2
      rfl rfl⟩

/-- C5 (counterexample): rendering the assembled context built from
all-empty raw inputs except chapter `"C"` and plan `"P"` shows both claimed
properties failing: the chapters section (`当前章节`, position 49) renders
BEFORE the plan section (`规划信息`, position 58), not after it as the
claimed order `…plan, chapters` requires; and the empty characters
category renders as a labelled section with an empty body (`角色信息:`
immediately followed by the blank separator), not as a non-empty
placeholder. -/
theorem formatContext_claim_false :
    formatContext (applyDefaults ⟨[], [], [], [], "C".toList, "P".toList⟩) =
      ("章节标题: 无章节标题\n\n章节摘要:\n暂无章节摘要\n\n世界观:\n" ++
        "暂无世界观设定\n\n角色信息:\n\n\n当前章节:\nC\n\n规划信息:\nP").toList ∧
    posOf "当前章节:".toList
        (formatContext
          (applyDefaults ⟨[], [], [], [], "C".toList, "P".toList⟩)) =
      some 49 ∧
    posOf "规划信息:".toList
        (formatContext
          (applyDefaults ⟨[], [], [], [], "C".toList, "P".toList⟩)) =
      some 58 ∧
    (49 : ℕ) < 58 := by
  refine ⟨by decide, by decide, by decide, by decide⟩

/-- C5 (amended): for every assembled context, the formatted concatenation
renders its six labelled sections in the fixed stable order title,
summary, worldview, characters, CHAPTERS, PLAN (chapters before plan, not
after); title, summary and worldview substitute explicit non-empty
placeholders when their content is empty, while characters, chapters and
plan render as labelled sections with empty bodies — never omitted, but
with no placeholder. -/
theorem formatContext_sections (raw : ContextData) :
    formatContext (applyDefaults raw) =
      joinSep "\n\n".toList (renderSections raw) := by
  have e1 : "\n\n章节摘要:\n".toList =
      "\n\n".toList ++ "章节摘要:\n".toList := by decide
  have e2 : "\n\n世界观:\n".toList =
      "\n\n".toList ++ "世界观:\n".toList := by decide
  have e3 : "\n\n角色信息:\n".toList =
      "\n\n".toList ++ "角色信息:\n".toList := by decide
  have e4 : "\n\n当前章节:\n".toList =
      "\n\n".toList ++ "当前章节:\n".toList := by decide
  have e5 : "\n\n规划信息:\n".toList =
      "\n\n".toList ++ "规划信息:\n".toList := by decide
  simp only [formatContext, applyDefaults, renderSections, joinSep,
    e1, e2, e3, e4, e5, List.append_assoc]

theorem splitNL_no_newline (l : List Char) (h : ∀ c ∈ l, ¬c = '\n') :
    splitNL l = [l] := by
  induction l with
  | nil => rfl
  | cons c rest ih =>
    rw [splitNL, if_neg (h c (List.mem_cons_self _ _))]
    rw [ih (fun x hx => h x (List.mem_cons_of_mem _ hx))]

theorem fieldsAux_noSpace (l : List Char) :
    ∀ acc : List Char, (∀ c ∈ l, goIsSpace c = false) →
      (acc ≠ [] ∨ l ≠ []) → fieldsAux l acc = [acc.reverse ++ l] := by
  induction l with
  | nil =>
    intro acc _ hne
    rcases hne with hne | hne
    · rw [fieldsAux, if_neg hne]
      simp
    · exact absurd rfl hne
  | cons c rest ih =>
    intro acc h _
    rw [fieldsAux]
    rw [if_neg (by simp [h c (List.mem_cons_self _ _)])]
    rw [ih (c :: acc) (fun x hx => h x (List.mem_cons_of_mem _ hx))
      (Or.inl (by simp))]
    simp

theorem fields_noSpace (l : List Char) (h : ∀ c ∈ l, goIsSpace c = false)
    (hne : l ≠ []) : fields l = [l] := by
  rw [fields, fieldsAux_noSpace l [] h (Or.inr hne)]
  rfl

theorem count_allCJK (l : List Char) (h1 : ∀ c ∈ l, isChinese c = true)
    (h2 : ∀ c ∈ l, goIsSpace c = false) :
    Count l = 3 * l.length / 2 := by
  by_cases hne : l = []
  · subst hne
    rfl
  · rw [Count, if_neg hne, fields_noSpace l h2 hne]
    have hcw : isChineseWord l = true := by
      unfold isChineseWord
      rw [List.countP_eq_length.mpr (by simpa using h1)]
      have : 0 < l.length := List.length_pos.mpr hne
      simp only [decide_eq_true_eq]
      omega
    unfold countClasses classifyWord
    simp [hcw]

theorem cjkText_chars :
    ∀ c ∈ cjkText, isChinese c = true ∧ goIsSpace c = false ∧ ¬c = '\n' := by
  intro c hc
  have hmem : c ∈ cjkPhrase := by
    simp only [cjkText, List.mem_flatten] at hc
    obtain ⟨l, hl, hcl⟩ := hc
    rw [List.eq_of_mem_replicate hl] at hcl
    exact hcl
  simp only [cjkPhrase] at hmem
  fin_cases hmem <;> refine ⟨by decide, by decide, by decide⟩

theorem cjkText_len : cjkText.length = 1200 := by
  rw [cjkText, List.length_flatten, List.map_replicate, List.sum_replicate]
  norm_num [cjkPhrase]

theorem count_cjk_take (k : ℕ) :
    Count (cjkText.take k) = 3 * min k 1200 / 2 := by
  have h := count_allCJK (cjkText.take k)
    (fun c hc => (cjkText_chars c (List.take_subset _ _ hc)).1)
    (fun c hc => (cjkText_chars c (List.take_subset _ _ hc)).2.1)
  rw [h, List.length_take, cjkText_len]

theorem binSearchGo_step (runes : List Char) (limit : ℤ) (fuel l r best : ℕ) :
    binSearchGo runes limit (fuel + 1) l r best =
      if l > r then best
      else if (l + r) / 2 = 0 then
        binSearchGo runes limit fuel ((l + r) / 2 + 1) r best
      else if (Count (runes.take ((l + r) / 2)) : ℤ) ≤ limit then
        binSearchGo runes limit fuel ((l + r) / 2 + 1) r ((l + r) / 2)
      else binSearchGo runes limit fuel l ((l + r) / 2 - 1) best := rfl

theorem binSearch_cjk : binSearchGo cjkText 50 1202 0 1200 0 = 33 := by
  rw [show (1202:ℕ) = 1201 + 1 from rfl, binSearchGo_step]
  rw [if_neg (by norm_num)]
  rw [if_neg (by norm_num)]
  rw [if_neg (by rw [count_cjk_take]; norm_num [Nat.min_def])]
  norm_num
  rw [show (1201:ℕ) = 1200 + 1 from rfl, binSearchGo_step]
  rw [if_neg (by norm_num)]
  rw [if_neg (by norm_num)]
  rw [if_neg (by rw [count_cjk_take]; norm_num [Nat.min_def])]
  norm_num
  rw [show (1200:ℕ) = 1199 + 1 from rfl, binSearchGo_step]
  rw [if_neg (by norm_num)]
  rw [if_neg (by norm_num)]
  rw [if_neg (by rw [count_cjk_take]; norm_num [Nat.min_def])]
  norm_num
  rw [show (1199:ℕ) = 1198 + 1 from rfl, binSearchGo_step]
  rw [if_neg (by norm_num)]
  rw [if_neg (by norm_num)]
  rw [if_neg (by rw [count_cjk_take]; norm_num [Nat.min_def])]
  norm_num
  rw [show (1198:ℕ) = 1197 + 1 from rfl, binSearchGo_step]
  rw [if_neg (by norm_num)]
  rw [if_neg (by norm_num)]
  rw [if_neg (by rw [count_cjk_take]; norm_num [Nat.min_def])]
  norm_num
  rw [show (1197:ℕ) = 1196 + 1 from rfl, binSearchGo_step]
  rw [if_neg (by norm_num)]
  rw [if_neg (by norm_num)]
  rw [if_pos (by rw [count_cjk_take]; norm_num [Nat.min_def])]
  norm_num
  rw [show (1196:ℕ) = 1195 + 1 from rfl, binSearchGo_step]
  rw [if_neg (by norm_num)]
  rw [if_neg (by norm_num)]
  rw [if_pos (by rw [count_cjk_take]; norm_num [Nat.min_def])]
  norm_num
  rw [show (1195:ℕ) = 1194 + 1 from rfl, binSearchGo_step]
  rw [if_neg (by norm_num)]
  rw [if_neg (by norm_num)]
  rw [if_pos (by rw [count_cjk_take]; norm_num [Nat.min_def])]
  norm_num
  rw [show (1194:ℕ) = 1193 + 1 from rfl, binSearchGo_step]
  rw [if_neg (by norm_num)]
  rw [if_neg (by norm_num)]
  rw [if_pos (by rw [count_cjk_take]; norm_num [Nat.min_def])]
  norm_num
  rw [show (1193:ℕ) = 1192 + 1 from rfl, binSearchGo_step]
  rw [if_neg (by norm_num)]
  rw [if_neg (by norm_num)]
  rw [if_neg (by rw [count_cjk_take]; norm_num [Nat.min_def])]
  norm_num
  rw [show (1192:ℕ) = 1191 + 1 from rfl, binSearchGo_step]
  rw [if_pos (by norm_num)]

theorem cjk_hne : cjkText ≠ [] := by
  intro h
  have h2 := cjkText_len
  rw [h] at h2
  simp at h2

theorem cjk_htlc : truncateLineByCharacters cjkText 50 = cjkText.take 33 := by
  rw [truncateLineByCharacters, if_neg (by norm_num)]
  rw [cjkText_len]
  rw [show (1200 + 2 : ℕ) = 1202 from rfl]
  rw [binSearch_cjk]
  rw [if_neg (by norm_num)]

theorem cjk_htlw : truncateLineByWords cjkText 50 = cjkText.take 33 := by
  rw [truncateLineByWords, if_neg (by norm_num)]
  rw [fields_noSpace _ (fun c hc => (cjkText_chars c hc).2.1) cjk_hne]
  rw [if_neg (by norm_num)]
  exact cjk_htlc

theorem cjk_take33_ne : cjkText.take 33 ≠ [] := by
  intro h
  have h2 : (cjkText.take 33).length = 0 := by rw [h]; rfl
  rw [List.length_take, cjkText_len] at h2
  norm_num [Nat.min_def] at h2

theorem cjk_count1800 : Count cjkText = 1800 := by
  have h := count_allCJK cjkText (fun c hc => (cjkText_chars c hc).1)
    (fun c hc => (cjkText_chars c hc).2.1)
  rw [h, cjkText_len]

theorem cjk_main : simpleTokenTruncate cjkText 50 = (cjkText.take 33, 49) := by
  rw [simpleTokenTruncate, if_neg (by norm_num)]
  rw [splitNL_no_newline _ (fun c hc => (cjkText_chars c hc).2.2)]
  rw [truncLinesSimple]
  rw [cjk_count1800]
  rw [if_pos (by norm_num : (0:ℤ) + (1800:ℕ) > 50)]
  rw [if_pos (by norm_num : (0:ℤ) < 50)]
  rw [show ((50:ℤ) - 0) = 50 by norm_num]
  rw [cjk_htlw]
  rw [if_neg cjk_take33_ne]
  rw [count_cjk_take]
  norm_num [Nat.min_def, joinSep]

/-- C2: on 300 repeats of the 4-codepoint CJK phrase (1200 codepoints, no
whitespace) with ceiling 50, the truncator sees a single line
(`splitNL` returns one piece) holding a single unbroken word (`fields`
returns one field), so line- and word-level accumulation fall through to
the codepoint-level binary search, which returns the longest codepoint
prefix whose estimate fits the ceiling — the 33-codepoint prefix, a
non-empty literal `take` (so no codepoint is split at the boundary) —
together with that prefix's estimate 49 ≤ 50. -/
theorem cjk_codepoint_fallback :
    splitNL cjkText = [cjkText] ∧
    fields cjkText = [cjkText] ∧
    simpleTokenTruncate cjkText 50 = (cjkText.take 33, 49) ∧
    Count (cjkText.take 33) = 49 ∧
    ∀ k : ℕ, Count (cjkText.take k) ≤ 50 → k ≤ 33 := by
  refine ⟨splitNL_no_newline _ (fun c hc => (cjkText_chars c hc).2.2),
    fields_noSpace _ (fun c hc => (cjkText_chars c hc).2.1) cjk_hne,
    cjk_main, ?_, ?_⟩
  · rw [count_cjk_take]
    norm_num [Nat.min_def]
  · intro k hk
    rw [count_cjk_take] at hk
    rcases le_or_lt k 1200 with h | h
    · rw [min_eq_left h] at hk
      omega
    · rw [min_eq_right h.le] at hk
      norm_num at hk

/-- Witness for C2's maximality clause at `k = 20`. -/
theorem cjk_codepoint_fallback_witness :
    Count (cjkText.take 20) ≤ 50 ∧ (20 : ℕ) ≤ 33 := by
  have h : Count (cjkText.take 20) ≤ 50 := by
    rw [count_cjk_take]
    norm_num [Nat.min_def]
  exact ⟨h, cjk_codepoint_fallback.2.2.2.2 20 h⟩

end NovelWF
